import Mathlib

/-
Verification development for the runtime pattern-matching engine
(`src/match.ts` builder plus the combinator library in the unnamed source
file).  JS values are embedded as a finite inductive `JsValue`; patterns as
`JsPattern`; the selector side channel of `matchPattern(pattern, value,
selector)` is made explicit: a match attempt returns the ordered list of
`selector(key, value)` calls it emits, and each caller interprets that
call list with its own write policy (plain overwrite for `with`,
`optional`, `intersection`, `union`; per-key append for `array`), exactly
as the closures in the source do.
-/

namespace TsPattern

/-- JS runtime values relevant to the matcher: primitives (including
`undefined`, `null` and bigints, whose `JSON.stringify` throws), arrays,
and plain objects as insertion-ordered field lists. -/
inductive JsValue where
  | undefined
  | null
  | bool (b : Bool)
  | num (n : Int)
  | bigint (n : Int)
  | str (s : String)
  | arr (elems : List JsValue)
  | obj (fields : List (String × JsValue))
deriving Repr

/-- Selection keys.  Modelled from the spec: the anonymous selection key of
`internals/symbols` is not under `src/`; the spec describes it as a
dedicated sentinel key guaranteed distinct from every user-chosen string
key, which is exactly a dedicated constructor. -/
inductive SelKey where
  | anonymousSelectKey
  | named (key : String)
deriving DecidableEq, Repr

/-- Pattern AST.  `lit`, `objShape`, `arrTuple` are the non-matcher pattern
forms dispatched structurally by `matchPattern` (modelled from the spec,
`internals/helpers` is not under `src/`); the remaining constructors are
the matcher combinators of the combinator library source (`optional`,
`array`, `intersection`, `union`, `not`, `when`, `select`).  The primitive
wildcards of the source (`__`, `string`, `number`, ...) are `when` applied
to a type test and need no constructors of their own. -/
inductive JsPattern where
  | lit (v : JsValue)
  | objShape (fields : List (String × JsPattern))
  | arrTuple (elems : List JsPattern)
  | optional (p : JsPattern)
  | array (p : JsPattern)
  | intersection (ps : List JsPattern)
  | union (ps : List JsPattern)
  | not (p : JsPattern)
  | when (pred : JsValue → Bool)
  | select (key : Option String)

/-- Ordered list of `selector(key, value)` calls / insertion-ordered
selection record. -/
abbrev Selections := List (SelKey × JsValue)

/-- `Object.is` on our value universe.  Composite values compare by
reference in JS; a composite literal pattern never reaches this fallback
(it is dispatched as `objShape`/`arrTuple`), so composites yield `false`
here. -/
def primEq : JsValue → JsValue → Bool
  | .undefined, .undefined => true
  | .null, .null => true
  | .bool a, .bool b => a == b
  | .num a, .num b => a == b
  | .bigint a, .bigint b => a == b
  | .str a, .str b => a == b
  | _, _ => false

/-- JS property lookup on an insertion-ordered field list. -/
def lookupField : List (String × JsValue) → String → Option JsValue
  | [], _ => none
  | kv :: rest, k => if kv.1 = k then some kv.2 else lookupField rest k

/-- `value[key]`, defaulting to `undefined` for an absent field.  Only ever
applied to `obj` values by the matcher (it guards with its shape test
first); other receivers give `undefined` as in JS for primitives. -/
def getField (v : JsValue) (k : String) : JsValue :=
  match v with
  | .obj fs => (lookupField fs k).getD .undefined
  | _ => .undefined

/-- Lookup in a selection record. -/
def lookupSel : Selections → SelKey → Option JsValue
  | [], _ => none
  | kv :: rest, k => if kv.1 = k then some kv.2 else lookupSel rest k

/-- JS assignment `m[k] = v`: updates in place (keeping key order) or
appends a fresh key. -/
def setSel : Selections → SelKey → JsValue → Selections
  | [], k, v => [(k, v)]
  | kv :: rest, k, v => if kv.1 = k then (k, v) :: rest else kv :: setSel rest k v

/-- The overwrite selector `(key, value) => \x7b selected[key] = value \x7d`
run over a call list. -/
def applySetAll (calls : Selections) (m : Selections) : Selections :=
  calls.foldl (fun acc kv => setSel acc kv.1 kv.2) m

/-- The `array` combinator selector
`selections[key] = (selections[key] || []).concat([value])`. -/
def appendSel (m : Selections) (k : SelKey) (v : JsValue) : Selections :=
  match lookupSel m k with
  | some (.arr xs) => setSel m k (.arr (xs ++ [v]))
  | _ => setSel m k (.arr [v])

/-- The append selector run over a call list. -/
def applyAppendAll (calls : Selections) (m : Selections) : Selections :=
  calls.foldl (fun acc kv => appendSel acc kv.1 kv.2) m

/-- `key ?? symbols.anonymousSelectKey` of the `select` combinator. -/
def selKeyOf : Option String → SelKey
  | some k => .named k
  | none => .anonymousSelectKey

mutual

/-- `getSelectionKeys(pattern)`: the static selection keys of a pattern.
Modelled from the spec for the non-matcher forms (`internals/helpers` is
not under `src/`); for the combinators it is each matcher's own
`getSelectionKeys` from the combinator source (`optional`/`array` recurse,
`intersection`/`union` concatenate, `not`/`when` have none, `select` has
its one key). -/
def getSelectionKeys : JsPattern → List SelKey
  | .lit _ => []
  | .objShape fields => getSelectionKeysFields fields
  | .arrTuple elems => getSelectionKeysList elems
  | .optional p => getSelectionKeys p
  | .array p => getSelectionKeys p
  | .intersection ps => getSelectionKeysList ps
  | .union ps => getSelectionKeysList ps
  | .not _ => []
  | .when _ => []
  | .select key => [selKeyOf key]

def getSelectionKeysList : List JsPattern → List SelKey
  | [] => []
  | p :: rest => getSelectionKeys p ++ getSelectionKeysList rest

def getSelectionKeysFields : List (String × JsPattern) → List SelKey
  | [] => []
  | (_, p) :: rest => getSelectionKeys p ++ getSelectionKeysFields rest

end

/-- Seeding `selector(key, undefined)` over a key list into a fresh record
(`union` default fill and `optional`'s undefined branch). -/
def seedUndefined (keys : List SelKey) : Selections :=
  applySetAll (keys.map fun k => (k, .undefined)) []

mutual

/-- `matchPattern(pattern, value, selector)`, with the selector made
explicit: the second component is the ordered list of `selector` calls the
attempt emits towards its caller.  Modelled from the spec for the
non-matcher dispatch (`internals/helpers` is not under `src/`): object and
tuple shapes recurse field by field with the caller's selector passed
straight down (so nested captures are forwarded as discovered, even if a
later field fails the overall shape — short-circuiting on the first
failing field), literals fall back to `Object.is`; "keyed record" is read
as an `obj` value.  Matcher combinators collect into their own record
(`matchFields`/`matchTuple` pass through; `matchEvery`, `matchSome`,
`matchElems` fold the source's `every`/`some` loops with their selector's
write policy) and their entries are forwarded only when the combinator
reports `matched: true`, exactly as the `matchPattern` dispatch does. -/
def matchPattern : JsPattern → JsValue → Bool × Selections
  | .lit l, v => (primEq l v, [])
  | .objShape fields, .obj fs => matchFields fields (.obj fs)
  | .objShape _, _ => (false, [])
  | .arrTuple elems, .arr xs =>
    if elems.length = xs.length then matchTuple elems xs else (false, [])
  | .arrTuple _, _ => (false, [])
  | .optional p, .undefined => (true, seedUndefined (getSelectionKeys p))
  | .optional p, v =>
    let r := matchPattern p v
    (r.1, if r.1 then applySetAll r.2 [] else [])
  | .array p, .arr xs =>
    let r := matchElems p xs []
    (r.1, if r.1 then r.2 else [])
  | .array _, _ => (false, [])
  | .intersection ps, v =>
    let r := matchEvery ps v []
    (r.1, if r.1 then r.2 else [])
  | .union ps, v =>
    let r := matchSome ps v (seedUndefined (getSelectionKeysList ps))
    (r.1, if r.1 then r.2 else [])
  | .not p, v => (!(matchPattern p v).1, [])
  | .when pred, v => (pred v, [])
  | .select key, v => (true, [(selKeyOf key, v)])
termination_by p _ => (sizeOf p, 0)

def matchFields : List (String × JsPattern) → JsValue → Bool × Selections
  | [], _ => (true, [])
  | (k, p) :: rest, v =>
    let r := matchPattern p (getField v k)
    if r.1 then
      let r2 := matchFields rest v
      (r2.1, r.2 ++ r2.2)
    else (false, r.2)
termination_by fields _ => (sizeOf fields, 0)

def matchTuple : List JsPattern → List JsValue → Bool × Selections
  | [], _ => (true, [])
  | p :: ps, [] =>
    let r := matchPattern p .undefined
    if r.1 then
      let r2 := matchTuple ps []
      (r2.1, r.2 ++ r2.2)
    else (false, r.2)
  | p :: ps, x :: rest =>
    let r := matchPattern p x
    if r.1 then
      let r2 := matchTuple ps rest
      (r2.1, r.2 ++ r2.2)
    else (false, r.2)
termination_by elems _ => (sizeOf elems, 0)

def matchEvery : List JsPattern → JsValue → Selections → Bool × Selections
  | [], _, acc => (true, acc)
  | p :: rest, v, acc =>
    let r := matchPattern p v
    let acc2 := applySetAll r.2 acc
    if r.1 then matchEvery rest v acc2 else (false, acc2)
termination_by ps _ _ => (sizeOf ps, 0)

def matchSome : List JsPattern → JsValue → Selections → Bool × Selections
  | [], _, acc => (false, acc)
  | p :: rest, v, acc =>
    let r := matchPattern p v
    let acc2 := applySetAll r.2 acc
    if r.1 then (true, acc2) else matchSome rest v acc2
termination_by ps _ _ => (sizeOf ps, 0)

def matchElems : JsPattern → List JsValue → Selections → Bool × Selections
  | _, [], acc => (true, acc)
  | p, x :: rest, acc =>
    let r := matchPattern p x
    let acc2 := applyAppendAll r.2 acc
    if r.1 then matchElems p rest acc2 else (false, acc2)
termination_by p xs _ => (sizeOf p, xs.length + 1)

end

/-- The one JS exception kind the matching algorithm could conceivably hit:
a `TypeError` from reading a property of `undefined`/`null`. -/
inductive JsError where
  | typeError
deriving DecidableEq, Repr

/-- `value[key]` in a semantics where the possible JS `TypeError` is
explicit: property reads on `undefined`/`null` throw; every other receiver
yields the field or `undefined`. -/
def getFieldE (v : JsValue) (k : String) : Except JsError JsValue :=
  match v with
  | .undefined => .error .typeError
  | .null => .error .typeError
  | .obj fs => .ok ((lookupField fs k).getD .undefined)
  | _ => .ok .undefined

mutual

/-- `matchPattern` in the exception-explicit semantics: identical dispatch
to `matchPattern`, but property reads go through `getFieldE`, so a shape
mismatch the algorithm failed to guard would surface as `.error`.  The
totality claim is that this never happens (see `matchPatternE_eq`). -/
def matchPatternE : JsPattern → JsValue → Except JsError (Bool × Selections)
  | .lit l, v => .ok (primEq l v, [])
  | .objShape fields, .obj fs => matchFieldsE fields (.obj fs)
  | .objShape _, _ => .ok (false, [])
  | .arrTuple elems, .arr xs =>
    if elems.length = xs.length then matchTupleE elems xs else .ok (false, [])
  | .arrTuple _, _ => .ok (false, [])
  | .optional p, .undefined => .ok (true, seedUndefined (getSelectionKeys p))
  | .optional p, v =>
    match matchPatternE p v with
    | .error e => .error e
    | .ok r => .ok (r.1, if r.1 then applySetAll r.2 [] else [])
  | .array p, .arr xs =>
    match matchElemsE p xs [] with
    | .error e => .error e
    | .ok r => .ok (r.1, if r.1 then r.2 else [])
  | .array _, _ => .ok (false, [])
  | .intersection ps, v =>
    match matchEveryE ps v [] with
    | .error e => .error e
    | .ok r => .ok (r.1, if r.1 then r.2 else [])
  | .union ps, v =>
    match matchSomeE ps v (seedUndefined (getSelectionKeysList ps)) with
    | .error e => .error e
    | .ok r => .ok (r.1, if r.1 then r.2 else [])
  | .not p, v =>
    match matchPatternE p v with
    | .error e => .error e
    | .ok r => .ok (!r.1, [])
  | .when pred, v => .ok (pred v, [])
  | .select key, v => .ok (true, [(selKeyOf key, v)])
termination_by p _ => (sizeOf p, 0)

def matchFieldsE : List (String × JsPattern) → JsValue → Except JsError (Bool × Selections)
  | [], _ => .ok (true, [])
  | (k, p) :: rest, v =>
    match getFieldE v k with
    | .error e => .error e
    | .ok fv =>
      match matchPatternE p fv with
      | .error e => .error e
      | .ok r =>
        if r.1 then
          match matchFieldsE rest v with
          | .error e => .error e
          | .ok r2 => .ok (r2.1, r.2 ++ r2.2)
        else .ok (false, r.2)
termination_by fields _ => (sizeOf fields, 0)

def matchTupleE : List JsPattern → List JsValue → Except JsError (Bool × Selections)
  | [], _ => .ok (true, [])
  | p :: ps, [] =>
    match matchPatternE p .undefined with
    | .error e => .error e
    | .ok r =>
      if r.1 then
        match matchTupleE ps [] with
        | .error e => .error e
        | .ok r2 => .ok (r2.1, r.2 ++ r2.2)
      else .ok (false, r.2)
  | p :: ps, x :: rest =>
    match matchPatternE p x with
    | .error e => .error e
    | .ok r =>
      if r.1 then
        match matchTupleE ps rest with
        | .error e => .error e
        | .ok r2 => .ok (r2.1, r.2 ++ r2.2)
      else .ok (false, r.2)
termination_by elems _ => (sizeOf elems, 0)

def matchEveryE : List JsPattern → JsValue → Selections → Except JsError (Bool × Selections)
  | [], _, acc => .ok (true, acc)
  | p :: rest, v, acc =>
    match matchPatternE p v with
    | .error e => .error e
    | .ok r =>
      let acc2 := applySetAll r.2 acc
      if r.1 then matchEveryE rest v acc2 else .ok (false, acc2)
termination_by ps _ _ => (sizeOf ps, 0)

def matchSomeE : List JsPattern → JsValue → Selections → Except JsError (Bool × Selections)
  | [], _, acc => .ok (false, acc)
  | p :: rest, v, acc =>
    match matchPatternE p v with
    | .error e => .error e
    | .ok r =>
      let acc2 := applySetAll r.2 acc
      if r.1 then .ok (true, acc2) else matchSomeE rest v acc2
termination_by ps _ _ => (sizeOf ps, 0)

def matchElemsE : JsPattern → List JsValue → Selections → Except JsError (Bool × Selections)
  | _, [], acc => .ok (true, acc)
  | p, x :: rest, acc =>
    match matchPatternE p x with
    | .error e => .error e
    | .ok r =>
      let acc2 := applyAppendAll r.2 acc
      if r.1 then matchElemsE p rest acc2 else .ok (false, acc2)
termination_by p xs _ => (sizeOf p, xs.length + 1)

end

/-- An argument of `.with(...)` before the trailing handler: a pattern or a
raw predicate function.  (JS distinguishes the two by `typeof args[1] ===
'function'`.) -/
inductive WithArg where
  | pat (p : JsPattern)
  | fn (f : JsValue → Bool)

/-- A recorded case of the builder.  The three constructors are the three
closure shapes `with`, `when` and `otherwise` push on the case list;
handlers are identified by an opaque id, and resolution reports which
handler is invoked with which arguments. -/
inductive Case where
  | withCase (patterns : List WithArg) (predicates : List (JsValue → Bool)) (handler : Nat)
  | whenCase (predicate : JsValue → Bool) (handler : Nat)
  | otherwiseCase (handler : Nat)

def Case.handler : Case → Nat
  | .withCase _ _ h => h
  | .whenCase _ h => h
  | .otherwiseCase h => h

/-- Argument parsing of `with`: `args.length === 3 && typeof args[1] ===
'function'` (exactly one leading argument before a function and the
handler) makes that function a guard; otherwise ALL leading arguments are
pushed as patterns. -/
def parseWithArgs : List WithArg → List WithArg × List (JsValue → Bool)
  | [a, .fn f] => ([a], [f])
  | leading => (leading, [])

/-- `matchPattern(pattern, value, selector)` on one `with` argument.  A raw
function in pattern position reaches the `Object.is` fallback of
`matchPattern` and (our value universe containing no function values)
matches nothing and emits nothing. -/
def argMatch : WithArg → JsValue → Bool × Selections
  | .pat p, v => matchPattern p v
  | .fn _, _ => (false, [])

/-- `patterns.some((pattern) => matchPattern(pattern, value, selector))`
with the case's one shared `selected` record as the selector target:
arguments are tried in order, each attempt's emitted calls are written into
the shared record, and the scan stops at the first match. -/
def scanPatterns : List WithArg → JsValue → Selections → Bool × Selections
  | [], _, acc => (false, acc)
  | a :: rest, v, acc =>
    let r := argMatch a v
    let acc2 := applySetAll r.2 acc
    if r.1 then (true, acc2) else scanPatterns rest v acc2

/-- Rendering of a selection key as a JS record key (the anonymous sentinel
renders as its reserved name, distinct from any user key by construction
of `SelKey`). -/
def selKeyName : SelKey → String
  | .anonymousSelectKey => "@ts-pattern/__anonymous-select-key__"
  | .named k => k

/-- The captures record handed to a handler. -/
def recordValue (sel : Selections) : JsValue :=
  .obj (sel.map fun kv => (selKeyName kv.1, kv.2))

/-- The `select` closure of a `with` case:
`Object.keys(selected).length ? (anonymousSelectKey in selected ?
selected[anonymousSelectKey] : selected) : value`. -/
def caseSelect (sel : Selections) (v : JsValue) : JsValue :=
  if sel.isEmpty then v
  else
    match lookupSel sel .anonymousSelectKey with
    | some x => x
    | none => recordValue sel

/-- One case's `test` and `select` results on the bound value (the shared
`selected` record is written by `test` and read by `select`). -/
def runCase : Case → JsValue → Bool × JsValue
  | .withCase pats preds _, v =>
    let r := scanPatterns pats v []
    (r.1 && preds.all fun f => f v, caseSelect r.2 v)
  | .whenCase f _, v => (f v, v)
  | .otherwiseCase _, v => (true, v)

/-- The builder: the bound subject value plus the ordered case list. -/
structure Builder where
  value : JsValue
  cases : List Case

/-- Result of `JSON.stringify`: a string, no string (`undefined`, for a
top-level `undefined`), or a thrown `TypeError` (bigints). -/
inductive JsonRes where
  | thrown
  | noString
  | str (s : String)
deriving DecidableEq, Repr

mutual

/-- `JSON.stringify` over our value universe: bigints anywhere throw,
`undefined` yields no string at top level, renders as `null` inside arrays
and is skipped inside objects. -/
def jsonStringify : JsValue → JsonRes
  | .undefined => .noString
  | .null => .str "null"
  | .bool b => .str (if b then "true" else "false")
  | .num n => .str (toString n)
  | .bigint _ => .thrown
  | .str s => .str ("\"" ++ s ++ "\"")
  | .arr xs =>
    match jsonElems xs with
    | some ss => .str ("[" ++ String.intercalate "," ss ++ "]")
    | none => .thrown
  | .obj fs =>
    match jsonFields fs with
    | some ss => .str ("\x7b" ++ String.intercalate "," ss ++ "\x7d")
    | none => .thrown
termination_by v => sizeOf v

def jsonElems : List JsValue → Option (List String)
  | [] => some []
  | x :: rest =>
    match jsonStringify x, jsonElems rest with
    | .thrown, _ => none
    | _, none => none
    | .noString, some ss => some ("null" :: ss)
    | .str s, some ss => some (s :: ss)
termination_by xs => sizeOf xs

def jsonFields : List (String × JsValue) → Option (List String)
  | [] => some []
  | (k, x) :: rest =>
    match jsonStringify x, jsonFields rest with
    | .thrown, _ => none
    | _, none => none
    | .noString, some ss => some ss
    | .str s, some ss => some (("\"" ++ k ++ "\":" ++ s) :: ss)
termination_by fs => sizeOf fs

end

/-- The `displayedValue` computed by `run` for its error message:
`try \x7b displayedValue = JSON.stringify(value) \x7d catch (e)
\x7b displayedValue = value \x7d` — the serialized string when
serialization yields one, the raw value itself otherwise. -/
def displayedValue (v : JsValue) : String ⊕ JsValue :=
  match jsonStringify v with
  | .str s => .inl s
  | .noString => .inr v
  | .thrown => .inr v

/-- Resolution outcome: the invoked handler with its two arguments
(`handler(select(value), value)`), or the unhandled-match error carrying
its displayed value. -/
inductive RunResult where
  | ok (handler : Nat) (selected : JsValue) (value : JsValue)
  | unhandled (displayed : String ⊕ JsValue)

/-- `cases.find((\x7b test \x7d) => test(value))`. -/
def findFirst : List Case → JsValue → Option Case
  | [], _ => none
  | c :: rest, v => if (runCase c v).1 = true then some c else findFirst rest v

/-- The `run` closure of the builder: find the first case whose test
succeeds and invoke its handler on `(select(value), value)`; otherwise
raise the unhandled-match error. -/
def run (b : Builder) : RunResult :=
  match findFirst b.cases b.value with
  | some c => .ok c.handler (runCase c b.value).2 b.value
  | none => .unhandled (displayedValue b.value)

/-- `match(value)`: an accumulating builder with an empty case list. -/
def match' (value : JsValue) : Builder := ⟨value, []⟩

/-- `with(...args)`: parse the leading arguments, append one case built
from them, return a new builder (`cases.concat([...])`). -/
def Builder.with' (b : Builder) (leading : List WithArg) (handler : Nat) : Builder :=
  ⟨b.value, b.cases ++ [.withCase (parseWithArgs leading).1 (parseWithArgs leading).2 handler]⟩

/-- `when(predicate, handler)`: append a case whose test is the predicate
and whose select is the identity. -/
def Builder.when' (b : Builder) (predicate : JsValue → Bool) (handler : Nat) : Builder :=
  ⟨b.value, b.cases ++ [.whenCase predicate handler]⟩

/-- `otherwise(handler)`: append a catch-all case (`test: () => true`,
`select` the identity) and run. -/
def Builder.otherwise (b : Builder) (handler : Nat) : RunResult :=
  run ⟨b.value, b.cases ++ [.otherwiseCase handler]⟩

/-- `exhaustive()`: just `run()`. -/
def Builder.exhaustive (b : Builder) : RunResult := run b

/-- `run()` as a builder method. -/
def Builder.run (b : Builder) : RunResult := TsPattern.run b

/-- Last write for a key in a selector call list (overwrite policy means
the last call wins). -/
def lastWrite : Selections → SelKey → Option JsValue
  | [], _ => none
  | kv :: rest, k =>
    match lastWrite rest k with
    | some v => some v
    | none => if kv.1 = k then some kv.2 else none

/-- All values written for a key, in call order (append policy collects
them all). -/
def appendsFor (calls : Selections) (k : SelKey) : List JsValue :=
  (calls.filter fun kv => decide (kv.1 = k)).map fun kv => kv.2

/-- The selector calls the `union` combinator's `some` loop feeds its
record: each branch's emitted calls, in branch order, up to and including
the first branch that matches. -/
def someCalls : List JsPattern → JsValue → Selections
  | [], _ => []
  | p :: rest, v =>
    let r := matchPattern p v
    r.2 ++ (if r.1 then [] else someCalls rest v)

/-- The selector calls a `with` case's pattern scan feeds the shared
`selected` record: each listed argument's emitted calls, in listed order,
up to and including the first argument that matches. -/
def scanCalls : List WithArg → JsValue → Selections
  | [], _ => []
  | a :: rest, v =>
    let r := argMatch a v
    r.2 ++ (if r.1 then [] else scanCalls rest v)

/-- The selector calls the `array` combinator feeds its record when every
element matches: each element's emitted calls, in element order. -/
def elemCalls (p : JsPattern) : List JsValue → Selections
  | [] => []
  | x :: rest => (matchPattern p x).2 ++ elemCalls p rest

theorem lookupSel_setSel : ∀ (m : Selections) (k : SelKey) (v : JsValue) (k' : SelKey),
    lookupSel (setSel m k v) k' = if k = k' then some v else lookupSel m k'
  | [], k, v, k' => by simp [setSel, lookupSel]
  | kv :: rest, k, v, k' => by
    by_cases h1 : kv.1 = k
    · by_cases h2 : k = k' <;> simp [setSel, lookupSel, h1, h2]
    · by_cases h2 : k = k'
      · subst h2
        simp [setSel, lookupSel, h1, lookupSel_setSel rest k v k]
      · have h2' : ¬k' = k := fun h => h2 h.symm
        by_cases h3 : kv.1 = k' <;>
          simp [setSel, lookupSel, h1, h2, h2', h3, lookupSel_setSel rest k v k']

theorem applySetAll_append (xs ys : Selections) (m : Selections) :
    applySetAll (xs ++ ys) m = applySetAll ys (applySetAll xs m) := by
  simp [applySetAll, List.foldl_append]

theorem lookupSel_applySetAll : ∀ (calls : Selections) (m : Selections) (k : SelKey),
    lookupSel (applySetAll calls m) k =
      match lastWrite calls k with
      | some v => some v
      | none => lookupSel m k
  | [], m, k => by simp [applySetAll, lastWrite]
  | c :: rest, m, k => by
    have ih := lookupSel_applySetAll rest (setSel m c.1 c.2) k
    simp only [applySetAll, List.foldl_cons] at ih ⊢
    rw [ih, lookupSel_setSel]
    cases hrest : lastWrite rest k <;> by_cases h : c.1 = k <;>
      simp [lastWrite, hrest, h]

theorem lastWrite_seed : ∀ (keys : List SelKey) (k : SelKey),
    lastWrite (keys.map fun k' => (k', JsValue.undefined)) k =
      if k ∈ keys then some JsValue.undefined else none
  | [], k => by simp [lastWrite]
  | k0 :: rest, k => by
    by_cases hmem : k ∈ rest <;> by_cases h0 : k0 = k <;>
      simp [lastWrite, lastWrite_seed rest k, hmem, h0, eq_comm]

theorem lookupSel_seedUndefined (keys : List SelKey) (k : SelKey) :
    lookupSel (seedUndefined keys) k = if k ∈ keys then some JsValue.undefined else none := by
  rw [seedUndefined, lookupSel_applySetAll, lastWrite_seed]
  by_cases h : k ∈ keys <;> simp [h, lookupSel]

theorem applyAppendAll_append (xs ys : Selections) (m : Selections) :
    applyAppendAll (xs ++ ys) m = applyAppendAll ys (applyAppendAll xs m) := by
  simp [applyAppendAll, List.foldl_append]

theorem scanPatterns_eq (v : JsValue) : ∀ (as : List WithArg) (acc : Selections),
    scanPatterns as v acc =
      ((as.any fun a => (argMatch a v).1), applySetAll (scanCalls as v) acc)
  | [], acc => by simp [scanPatterns, scanCalls, applySetAll]
  | a :: rest, acc => by
    have ih := scanPatterns_eq v rest (applySetAll (argMatch a v).2 acc)
    cases hb : (argMatch a v).1 <;>
      simp [scanPatterns, scanCalls, hb, ih, applySetAll_append]

theorem matchSome_eq (v : JsValue) : ∀ (ps : List JsPattern) (acc : Selections),
    matchSome ps v acc =
      ((ps.any fun p => (matchPattern p v).1), applySetAll (someCalls ps v) acc)
  | [], acc => by simp [matchSome, someCalls, applySetAll]
  | p :: rest, acc => by
    have ih := matchSome_eq v rest (applySetAll (matchPattern p v).2 acc)
    cases hb : (matchPattern p v).1 <;>
      simp [matchSome, someCalls, hb, ih, applySetAll_append]

theorem matchElems_fst (p : JsPattern) : ∀ (xs : List JsValue) (acc : Selections),
    (matchElems p xs acc).1 = xs.all fun x => (matchPattern p x).1
  | [], acc => by simp [matchElems]
  | x :: rest, acc => by
    cases hb : (matchPattern p x).1 <;>
      simp [matchElems, hb, matchElems_fst p rest _]

theorem matchElems_eq_of_all (p : JsPattern) : ∀ (xs : List JsValue) (acc : Selections),
    (∀ x ∈ xs, (matchPattern p x).1 = true) →
    matchElems p xs acc = (true, applyAppendAll (elemCalls p xs) acc)
  | [], acc, _ => by simp [matchElems, elemCalls, applyAppendAll]
  | x :: rest, acc, hall => by
    have hx : (matchPattern p x).1 = true := hall x (by simp)
    have ih := matchElems_eq_of_all p rest (applyAppendAll (matchPattern p x).2 acc)
      (fun y hy => hall y (by simp [hy]))
    simp [matchElems, hx, ih, elemCalls, applyAppendAll_append]

theorem lookupSel_applyAppendAll : ∀ (calls : Selections) (k : SelKey),
    lookupSel (applyAppendAll calls []) k =
      match appendsFor calls k with
      | [] => none
      | l => some (.arr l) := by
  intro calls
  induction calls using List.reverseRecOn with
  | nil => intro k; simp [applyAppendAll, appendsFor, lookupSel]
  | append_singleton xs c ih =>
    intro k
    have hstep : applyAppendAll (xs ++ [c]) [] =
        appendSel (applyAppendAll xs []) c.1 c.2 := by
      simp [applyAppendAll, List.foldl_append]
    have hfor : ∀ k', appendsFor (xs ++ [c]) k' =
        appendsFor xs k' ++ (if c.1 = k' then [c.2] else []) := by
      intro k'
      by_cases h : c.1 = k' <;> simp [appendsFor, List.filter_append, h]
    rw [hstep]
    simp only [appendSel]
    rw [ih c.1]
    cases hxs : appendsFor xs c.1 with
    | nil =>
      by_cases hk : c.1 = k
      · subst hk
        simp [lookupSel_setSel, hfor, hxs]
      · simp [lookupSel_setSel, hk, hfor, ih k]
    | cons y ys =>
      by_cases hk : c.1 = k
      · subst hk
        simp [lookupSel_setSel, hfor, hxs]
      · simp [lookupSel_setSel, hk, hfor, ih k]

mutual

theorem matchPatternE_eq : ∀ (p : JsPattern) (v : JsValue),
    matchPatternE p v = .ok (matchPattern p v)
  | .lit l, v => by simp [matchPatternE, matchPattern]
  | .objShape fields, v => by
    cases v <;> simp only [matchPatternE, matchPattern]
    case obj fs => exact matchFieldsE_eq fields fs
  | .arrTuple elems, v => by
    cases v <;> simp only [matchPatternE, matchPattern]
    case arr xs =>
      by_cases hl : elems.length = xs.length <;>
        simp [hl, matchTupleE_eq elems xs]
  | .optional p, v => by
    have hp := matchPatternE_eq p v
    cases v <;> simp [matchPatternE, matchPattern, hp]
  | .array p, v => by
    cases v <;> simp only [matchPatternE, matchPattern]
    case arr xs =>
      have he := matchElemsE_eq p xs []
      simp [he]
  | .intersection ps, v => by
    have he := matchEveryE_eq ps v []
    simp [matchPatternE, matchPattern, he]
  | .union ps, v => by
    have hs := matchSomeE_eq ps v (seedUndefined (getSelectionKeysList ps))
    simp [matchPatternE, matchPattern, hs]
  | .not p, v => by
    have hp := matchPatternE_eq p v
    simp [matchPatternE, matchPattern, hp]
  | .when pred, v => by simp [matchPatternE, matchPattern]
  | .select key, v => by simp [matchPatternE, matchPattern]
termination_by p _ => (sizeOf p, 0)

theorem matchFieldsE_eq : ∀ (fields : List (String × JsPattern)) (fs : List (String × JsValue)),
    matchFieldsE fields (.obj fs) = .ok (matchFields fields (.obj fs))
  | [], fs => by simp [matchFieldsE, matchFields]
  | (k, p) :: rest, fs => by
    have hp := matchPatternE_eq p ((lookupField fs k).getD .undefined)
    have hr := matchFieldsE_eq rest fs
    cases hb : (matchPattern p ((lookupField fs k).getD JsValue.undefined)).1 <;>
      simp [matchFieldsE, matchFields, getFieldE, getField, hp, hr, hb]
termination_by fields _ => (sizeOf fields, 0)

theorem matchTupleE_eq : ∀ (elems : List JsPattern) (xs : List JsValue),
    matchTupleE elems xs = .ok (matchTuple elems xs)
  | [], xs => by simp [matchTupleE, matchTuple]
  | p :: ps, [] => by
    have hp := matchPatternE_eq p .undefined
    have hr := matchTupleE_eq ps []
    cases hb : (matchPattern p .undefined).1 <;>
      simp [matchTupleE, matchTuple, hp, hr, hb]
  | p :: ps, x :: rest => by
    have hp := matchPatternE_eq p x
    have hr := matchTupleE_eq ps rest
    cases hb : (matchPattern p x).1 <;>
      simp [matchTupleE, matchTuple, hp, hr, hb]
termination_by elems _ => (sizeOf elems, 0)

theorem matchEveryE_eq : ∀ (ps : List JsPattern) (v : JsValue) (acc : Selections),
    matchEveryE ps v acc = .ok (matchEvery ps v acc)
  | [], v, acc => by simp [matchEveryE, matchEvery]
  | p :: rest, v, acc => by
    have hp := matchPatternE_eq p v
    have hr := matchEveryE_eq rest v (applySetAll (matchPattern p v).2 acc)
    cases hb : (matchPattern p v).1 <;>
      simp [matchEveryE, matchEvery, hp, hr, hb]
termination_by ps _ _ => (sizeOf ps, 0)

theorem matchSomeE_eq : ∀ (ps : List JsPattern) (v : JsValue) (acc : Selections),
    matchSomeE ps v acc = .ok (matchSome ps v acc)
  | [], v, acc => by simp [matchSomeE, matchSome]
  | p :: rest, v, acc => by
    have hp := matchPatternE_eq p v
    have hr := matchSomeE_eq rest v (applySetAll (matchPattern p v).2 acc)
    cases hb : (matchPattern p v).1 <;>
      simp [matchSomeE, matchSome, hp, hr, hb]
termination_by ps _ _ => (sizeOf ps, 0)

theorem matchElemsE_eq : ∀ (p : JsPattern) (xs : List JsValue) (acc : Selections),
    matchElemsE p xs acc = .ok (matchElems p xs acc)
  | p, [], acc => by simp [matchElemsE, matchElems]
  | p, x :: rest, acc => by
    have hp := matchPatternE_eq p x
    have hr := matchElemsE_eq p rest (applyAppendAll (matchPattern p x).2 acc)
    cases hb : (matchPattern p x).1 <;>
      simp [matchElemsE, matchElems, hp, hr, hb]
termination_by p xs _ => (sizeOf p, xs.length + 1)

end

theorem findFirst_append (l₁ l₂ : List Case) (v : JsValue) :
    findFirst (l₁ ++ l₂) v =
      match findFirst l₁ v with
      | some c => some c
      | none => findFirst l₂ v := by
  induction l₁ with
  | nil => simp [findFirst]
  | cons c rest ih => by_cases h : (runCase c v).1 = true <;> simp [findFirst, h, ih]

theorem findFirst_eq_none_iff (v : JsValue) : ∀ (l : List Case),
    findFirst l v = none ↔ ∀ c ∈ l, (runCase c v).1 = false
  | [] => by simp [findFirst]
  | c :: rest => by
    rw [findFirst]
    by_cases h : (runCase c v).1 = true
    · rw [if_pos h]
      constructor
      · intro habs; exact absurd habs (by simp)
      · intro hall; exact absurd (hall c (by simp)) (by simp [h])
    · rw [if_neg h, findFirst_eq_none_iff v rest]
      constructor
      · intro hall c' hc'
        rcases List.mem_cons.mp hc' with rfl | hmem
        · simpa using h
        · exact hall c' hmem
      · intro hall c' hc'
        exact hall c' (List.mem_cons_of_mem _ hc')

theorem findFirst_of_first (v : JsValue) : ∀ (pre : List Case) (c : Case) (post : List Case),
    (∀ c' ∈ pre, (runCase c' v).1 = false) → (runCase c v).1 = true →
    findFirst (pre ++ c :: post) v = some c
  | [], c, post, _, hc => by simp [findFirst, hc]
  | c' :: pre, c, post, hpre, hc => by
    have h' : (runCase c' v).1 = false := hpre c' (by simp)
    simp [findFirst, h']
    exact findFirst_of_first v pre c post (fun x hx => hpre x (by simp [hx])) hc

/-- C1: with cases in insertion order, every resolver (`run`, `exhaustive`,
`otherwise`) invokes the handler of the first case whose test succeeds on
the bound value, with that case's select result and the value itself as
arguments; later cases (`post`, arbitrary here, in particular also
matching ones) never contribute — first match wins. -/
theorem c1_first_match_wins (v : JsValue) (pre post : List Case) (c : Case) (h : Nat)
    (hpre : ∀ c' ∈ pre, (runCase c' v).1 = false) (hc : (runCase c v).1 = true) :
    run ⟨v, pre ++ c :: post⟩ = RunResult.ok c.handler (runCase c v).2 v ∧
    Builder.exhaustive ⟨v, pre ++ c :: post⟩ = RunResult.ok c.handler (runCase c v).2 v ∧
    Builder.run ⟨v, pre ++ c :: post⟩ = RunResult.ok c.handler (runCase c v).2 v ∧
    Builder.otherwise ⟨v, pre ++ c :: post⟩ h = RunResult.ok c.handler (runCase c v).2 v := by
  have hf : findFirst (pre ++ c :: post) v = some c := findFirst_of_first v pre c post hpre hc
  have h1 : run ⟨v, pre ++ c :: post⟩ = RunResult.ok c.handler (runCase c v).2 v := by
    simp [run, hf]
  refine ⟨h1, h1, h1, ?_⟩
  have hf2 : findFirst (pre ++ c :: (post ++ [Case.otherwiseCase h])) v = some c :=
    findFirst_of_first v pre c (post ++ [Case.otherwiseCase h]) hpre hc
  simp [Builder.otherwise, run, hf2]

/-- Witness for C1: three `when` cases on value `1`; the first returns
`false`, the second and third `true`; the second case's handler (id 1)
is the one invoked. -/
theorem c1_first_match_wins_witness :
    run ⟨.num 1, [Case.whenCase (fun _ => false) 0, Case.whenCase (fun _ => true) 1,
      Case.whenCase (fun _ => true) 2]⟩ = RunResult.ok 1 (.num 1) (.num 1) := by
  have h := (c1_first_match_wins (.num 1) [Case.whenCase (fun _ => false) 0]
    [Case.whenCase (fun _ => true) 2] (Case.whenCase (fun _ => true) 1) 7
    (by intro c' hc'; simp at hc'; simp [hc', runCase]) (by simp [runCase])).1
  simpa [runCase, Case.handler] using h

/-- C2: `otherwise` never produces the unhandled-match error (on a
zero-case builder it invokes its handler on the bound value); `run` and
`exhaustive` produce it exactly when no recorded case's test succeeds on
the bound value; the error payload is the structured serialization of the
value when `JSON.stringify` yields a string, and the raw value itself when
serialization throws — with no secondary failure, `run` still returns the
error in that case. -/
theorem c2_error_handling :
    (∀ (b : Builder) (h : Nat) (d : String ⊕ JsValue),
      Builder.otherwise b h ≠ RunResult.unhandled d) ∧
    (∀ (v : JsValue) (h : Nat), Builder.otherwise (match' v) h = RunResult.ok h v v) ∧
    (∀ b : Builder,
      (∃ d, run b = RunResult.unhandled d) ↔ ∀ c ∈ b.cases, (runCase c b.value).1 = false) ∧
    (∀ (b : Builder) (d : String ⊕ JsValue),
      run b = RunResult.unhandled d → d = displayedValue b.value) ∧
    (∀ b : Builder, Builder.exhaustive b = run b ∧ Builder.run b = run b) ∧
    (∀ (v : JsValue) (s : String), jsonStringify v = .str s → displayedValue v = .inl s) ∧
    (∀ v : JsValue, jsonStringify v = .thrown → displayedValue v = .inr v) := by
  refine ⟨?_, ?_, ?_, ?_, fun _ => ⟨rfl, rfl⟩, ?_, ?_⟩
  · intro b h d
    simp only [Builder.otherwise, run]
    rcases hf : findFirst (b.cases ++ [Case.otherwiseCase h]) b.value with _ | c
    · have := (findFirst_eq_none_iff b.value _).mp hf (Case.otherwiseCase h) (by simp)
      simp [runCase] at this
    · simp
  · intro v h
    simp [Builder.otherwise, match', run, findFirst, runCase, Case.handler]
  · intro b
    constructor
    · rintro ⟨d, hd⟩
      rw [run] at hd
      rcases hf : findFirst b.cases b.value with _ | c
      · exact (findFirst_eq_none_iff b.value b.cases).mp hf
      · rw [hf] at hd; exact absurd hd (by simp)
    · intro hall
      refine ⟨displayedValue b.value, ?_⟩
      rw [run, (findFirst_eq_none_iff b.value b.cases).mpr hall]
  · intro b d hd
    rw [run] at hd
    rcases hf : findFirst b.cases b.value with _ | c <;> rw [hf] at hd
    · simpa using hd.symm
    · exact absurd hd (by simp)
  · intro v s hs
    simp [displayedValue, hs]
  · intro v hv
    simp [displayedValue, hv]

/-- Witness for C2: on the zero-case builder bound to `5`, `otherwise`
invokes handler 7 on the value; `run` on that builder errs with the
serialized value; and for a bigint, whose serialization throws, the
error payload falls back to the raw value. -/
theorem c2_error_handling_witness :
    Builder.otherwise (match' (.num 5)) 7 = RunResult.ok 7 (.num 5) (.num 5) ∧
    run (match' (.num 5)) = RunResult.unhandled (.inl "5") ∧
    run (match' (.bigint 2)) = RunResult.unhandled (.inr (.bigint 2)) := by
  refine ⟨c2_error_handling.2.1 (.num 5) 7, ?_, ?_⟩
  · have := (c2_error_handling.2.2.1 (match' (.num 5))).mpr (by simp [match'])
    rcases this with ⟨d, hd⟩
    have hdval := c2_error_handling.2.2.2.1 (match' (.num 5)) d hd
    rw [hd, hdval]
    simp only [match', displayedValue, jsonStringify]
    rfl
  · have := (c2_error_handling.2.2.1 (match' (.bigint 2))).mpr (by simp [match'])
    rcases this with ⟨d, hd⟩
    have hdval := c2_error_handling.2.2.2.1 (match' (.bigint 2)) d hd
    have hthrown : jsonStringify (.bigint 2) = .thrown := by simp [jsonStringify]
    have := c2_error_handling.2.2.2.2.2.2 (.bigint 2) hthrown
    rw [hd, hdval]
    simp [match', this]

/-- C8: the matching algorithm is total and never throws — in the
exception-explicit semantics `matchPatternE` (where property reads on
`undefined`/`null` raise a `TypeError`), every pattern/value combination
evaluates to `.ok` of exactly the pure result, a boolean plus the emitted
selector calls; a shape mismatch is always boolean `false`, never an
exception. -/
theorem c8_matchPattern_total (p : JsPattern) (v : JsValue) :
    matchPatternE p v = Except.ok (matchPattern p v) :=
  matchPatternE_eq p v

/-- C9: `with` and `when` return a new builder carrying the same bound
value and the old case list with exactly one case appended; dropping the
appended case recovers the original case list, so the original builder is
unaffected and remains usable as an independent branch point. -/
theorem c9_builder_persistent (b : Builder) (leading : List WithArg) (h : Nat)
    (p : JsValue → Bool) (h2 : Nat) :
    (Builder.with' b leading h).value = b.value ∧
    (Builder.with' b leading h).cases =
      b.cases ++ [Case.withCase (parseWithArgs leading).1 (parseWithArgs leading).2 h] ∧
    (Builder.with' b leading h).cases.dropLast = b.cases ∧
    (Builder.when' b p h2).value = b.value ∧
    (Builder.when' b p h2).cases = b.cases ++ [Case.whenCase p h2] ∧
    (Builder.when' b p h2).cases.dropLast = b.cases := by
  refine ⟨rfl, rfl, ?_, rfl, rfl, ?_⟩ <;> simp [Builder.with', Builder.when']

/-- C10: case accumulation is pure recording — `with`/`when` produce
exactly the builder whose case list has the parsed case appended, storing
patterns, guard predicates and the handler id as inert data; no pattern
test, guard or handler is applied during accumulation (the results are
structurally independent of the behaviour of those functions), and
resolution of the extended builder is resolution over the recorded case
list alone. -/
theorem c10_accumulation_records_only (v : JsValue) (cs : List Case)
    (leading : List WithArg) (h : Nat) (p : JsValue → Bool) (h2 : Nat) :
    Builder.with' ⟨v, cs⟩ leading h =
      ⟨v, cs ++ [Case.withCase (parseWithArgs leading).1 (parseWithArgs leading).2 h]⟩ ∧
    Builder.when' ⟨v, cs⟩ p h2 = ⟨v, cs ++ [Case.whenCase p h2]⟩ ∧
    run (Builder.with' ⟨v, cs⟩ leading h) =
      run ⟨v, cs ++ [Case.withCase (parseWithArgs leading).1 (parseWithArgs leading).2 h]⟩ ∧
    run (Builder.when' ⟨v, cs⟩ p h2) = run ⟨v, cs ++ [Case.whenCase p h2]⟩ :=
  ⟨rfl, rfl, rfl, rfl⟩

/-- Counterexample to C3 as stated: on `with(tuple(select(), select("y")),
handler)` matched against `[1, 2]`, TWO captures are collected (the
anonymous one and `"y"`), so the claim says the handler receives the full
captures record; the code instead passes the anonymous capture `1` alone
(the source tests `anonymousSelectKey in selected` before testing whether
it is the only key), which is not the captures record. -/
theorem c3_counterexample :
    run (Builder.with' (match' (.arr [.num 1, .num 2]))
        [.pat (.arrTuple [.select none, .select (some "y")])] 0) =
      RunResult.ok 0 (.num 1) (.arr [.num 1, .num 2]) ∧
    (scanPatterns [.pat (.arrTuple [.select none, .select (some "y")])]
        (.arr [.num 1, .num 2]) []).2 =
      [(.anonymousSelectKey, .num 1), (.named "y", .num 2)] ∧
    JsValue.num 1 ≠ recordValue [(.anonymousSelectKey, .num 1), (.named "y", .num 2)] := by
  refine ⟨?_, ?_, ?_⟩
  · simp [run, Builder.with', match', parseWithArgs, findFirst, runCase, scanPatterns,
      argMatch, matchPattern, matchTuple, applySetAll, setSel, caseSelect, lookupSel,
      Case.handler, selKeyOf]
  · simp [scanPatterns, argMatch, matchPattern, matchTuple, applySetAll, setSel, selKeyOf]
  · simp [recordValue, selKeyName]

/-- C3 (amended): on resolution, a winning `with` case's handler receives
as first argument the anonymous capture whenever the anonymous key is
among the collected captures (even if named captures were collected too),
else the full captures record when any captures were collected, else the
whole bound value; the second argument is always the whole bound value. -/
theorem c3_handler_argument (v : JsValue) (pats : List WithArg)
    (preds : List (JsValue → Bool)) (h : Nat) (pre : List Case)
    (hpre : ∀ c' ∈ pre, (runCase c' v).1 = false)
    (hm : (runCase (.withCase pats preds h) v).1 = true) :
    run ⟨v, pre ++ [.withCase pats preds h]⟩ =
      RunResult.ok h (caseSelect (scanPatterns pats v []).2 v) v ∧
    ((scanPatterns pats v []).2 = [] → caseSelect (scanPatterns pats v []).2 v = v) ∧
    (∀ x, lookupSel (scanPatterns pats v []).2 .anonymousSelectKey = some x →
      caseSelect (scanPatterns pats v []).2 v = x) ∧
    ((scanPatterns pats v []).2 ≠ [] →
      lookupSel (scanPatterns pats v []).2 .anonymousSelectKey = none →
      caseSelect (scanPatterns pats v []).2 v = recordValue (scanPatterns pats v []).2) := by
  have hf := findFirst_of_first v pre (.withCase pats preds h) [] hpre hm
  refine ⟨?_, ?_, ?_, ?_⟩
  · simp [run, hf, runCase, Case.handler]
  · intro he
    simp [caseSelect, he]
  · intro x hx
    rcases hsel : (scanPatterns pats v []).2 with _ | ⟨kv, rest⟩
    · rw [hsel] at hx; simp [lookupSel] at hx
    · rw [hsel] at hx
      simp [caseSelect, hx]
  · intro hne hnone
    rcases hsel : (scanPatterns pats v []).2 with _ | ⟨kv, rest⟩
    · exact absurd hsel hne
    · rw [hsel] at hnone
      simp [caseSelect, hnone]

/-- Witness for C3 (amended): single anonymous select over value `7` —
the handler receives the captured `7` and the whole value `7`. -/
theorem c3_handler_argument_witness :
    run ⟨.num 7, [Case.withCase [.pat (.select none)] [] 3]⟩ =
      RunResult.ok 3 (.num 7) (.num 7) := by
  have h := (c3_handler_argument (.num 7) [.pat (.select none)] [] 3 []
    (by simp)
    (by simp [runCase, scanPatterns, argMatch, matchPattern, applySetAll, setSel,
      selKeyOf])).1
  simpa [scanPatterns, argMatch, matchPattern, applySetAll, setSel, selKeyOf,
    caseSelect, lookupSel] using h

/-- Counterexample to C4 as stated: `with(P1, P2, handler)` with
`P1 = objShape(a: select("x"), b: 1)` (which fails on the value but emits
the partial capture `x = 5` on the way) and `P2 = objShape()` (which
matches and captures nothing), bound to `(a: 5, b: 2)`.  The first — and
only — matching listed pattern is `P2` with no captures, so the claim says
the handler receives the whole value; the code surfaces the failed `P1`'s
partial capture as the record `(x: 5)` through the case's shared scratch
record. -/
theorem c4_counterexample :
    run (Builder.with' (match' (.obj [("a", .num 5), ("b", .num 2)]))
        [.pat (.objShape [("a", .select (some "x")), ("b", .lit (.num 1))]),
         .pat (.objShape [])] 0) =
      RunResult.ok 0 (.obj [("x", .num 5)]) (.obj [("a", .num 5), ("b", .num 2)]) ∧
    (matchPattern (.objShape []) (.obj [("a", .num 5), ("b", .num 2)])).2 = [] ∧
    JsValue.obj [("x", JsValue.num 5)] ≠ JsValue.obj [("a", JsValue.num 5), ("b", JsValue.num 2)] := by
  refine ⟨?_, ?_, ?_⟩
  · simp [run, Builder.with', match', parseWithArgs, findFirst, runCase, scanPatterns,
      argMatch, matchPattern, matchFields, getField, lookupField, primEq, applySetAll,
      setSel, caseSelect, lookupSel, Case.handler, selKeyOf, recordValue, selKeyName]
  · simp [matchPattern, matchFields]
  · simp

/-- C4 (amended): the selections a `with` case hands its handler are the
overwrite-merge, into the case's one shared scratch record, of every
selector call emitted while testing the listed arguments in order up to
and including the first that matches; matcher combinators (`union`,
`intersection`, `array`, `optional`, `not`, `when`) emit nothing when they
fail, but a failing object/tuple shape pattern may already have forwarded
nested captures (as `c4_counterexample` shows), so such partial captures
can be surfaced. -/
theorem c4_scan_shared_record (v : JsValue) (pats : List WithArg) :
    scanPatterns pats v [] =
      ((pats.any fun a => (argMatch a v).1), applySetAll (scanCalls pats v) []) ∧
    (∀ ps : List JsPattern, (matchPattern (.union ps) v).1 = false →
      (matchPattern (.union ps) v).2 = []) ∧
    (∀ ps : List JsPattern, (matchPattern (.intersection ps) v).1 = false →
      (matchPattern (.intersection ps) v).2 = []) ∧
    (∀ p : JsPattern, (matchPattern (.array p) v).1 = false →
      (matchPattern (.array p) v).2 = []) ∧
    (∀ p : JsPattern, (matchPattern (.optional p) v).1 = false →
      (matchPattern (.optional p) v).2 = []) ∧
    (∀ p : JsPattern, (matchPattern (.not p) v).2 = []) ∧
    (∀ f : JsValue → Bool, (matchPattern (.when f) v).2 = []) := by
  refine ⟨scanPatterns_eq v pats [], ?_, ?_, ?_, ?_, ?_, ?_⟩
  · intro ps hof
    simp only [matchPattern] at hof ⊢
    simp [hof]
  · intro ps hof
    simp only [matchPattern] at hof ⊢
    simp [hof]
  · intro p hof
    cases v <;> simp_all [matchPattern]
  · intro p hof
    cases v <;> simp_all [matchPattern]
  · intro p
    simp [matchPattern]
  · intro f
    simp [matchPattern]

/-- Witness for C4 (amended): a failing one-branch union emits nothing;
a one-pattern scan of a matching literal reports a match with the merge of
its (empty) emitted calls. -/
theorem c4_scan_shared_record_witness :
    (matchPattern (.union [.lit (.num 9)]) (.num 1)).2 = [] ∧
    scanPatterns [.pat (.lit (.num 1))] (.num 1) [] =
      (true, applySetAll (scanCalls [.pat (.lit (.num 1))] (.num 1)) []) := by
  constructor
  · exact (c4_scan_shared_record (.num 1) []).2.1 [.lit (.num 9)]
      (by simp [matchPattern, matchSome, getSelectionKeysList, seedUndefined,
        applySetAll, primEq])
  · have h := (c4_scan_shared_record (.num 1) [.pat (.lit (.num 1))]).1
    simpa [argMatch, matchPattern, primEq] using h

/-- Counterexample to C5 as stated: in
`union(objShape(a: select("x"), b: 1), objShape())` against
`(a: 5, b: 2)`, the key `"x"` is captured only on the first branch, which
is not the taken branch (it fails on `b`); the claim says `"x"` must then
appear as `undefined`, but the failing shape branch's partial selector
call overwrites the seed, so the union yields `x = 5` instead. -/
theorem c5_counterexample :
    matchPattern (.union [.objShape [("a", .select (some "x")), ("b", .lit (.num 1))],
        .objShape []]) (.obj [("a", .num 5), ("b", .num 2)]) =
      (true, [(.named "x", .num 5)]) ∧
    ((true, [(SelKey.named "x", JsValue.num 5)]) : Bool × Selections) ≠
      (true, [(.named "x", JsValue.undefined)]) := by
  constructor
  · simp [matchPattern, matchFields, matchSome, getSelectionKeysList, getSelectionKeys,
      getSelectionKeysFields, seedUndefined, applySetAll, setSel, getField, lookupField,
      primEq, selKeyOf]
  · simp

/-- C5 (amended): `union(...patterns)` matches iff at least one listed
pattern matches, testing in listed order; before testing, every selection
key of every listed pattern is seeded to `undefined`, and the selector
calls emitted while testing branches in order up to and including the
matching one overwrite the seeds (these are the matching branch's
captures, plus any partial calls a failing earlier shape branch forwarded);
every such key is present in the result, a key no tested branch wrote
stays `undefined` rather than absent, and in particular
`union(intersection(select("x"), "A"), "B")` against `"B"` yields exactly
the selection `x = undefined`. -/
theorem c5_union_default_fill (ps : List JsPattern) (v : JsValue) :
    (matchPattern (.union ps) v).1 = (ps.any fun p => (matchPattern p v).1) ∧
    ((matchPattern (.union ps) v).1 = true →
      (matchPattern (.union ps) v).2 =
        applySetAll (someCalls ps v) (seedUndefined (getSelectionKeysList ps))) ∧
    (∀ k ∈ getSelectionKeysList ps, (matchPattern (.union ps) v).1 = true →
      (lookupSel (matchPattern (.union ps) v).2 k).isSome = true) ∧
    (∀ k ∈ getSelectionKeysList ps, (matchPattern (.union ps) v).1 = true →
      lastWrite (someCalls ps v) k = none →
      lookupSel (matchPattern (.union ps) v).2 k = some JsValue.undefined) ∧
    matchPattern (.union [.intersection [.select (some "x"), .lit (.str "A")],
        .lit (.str "B")]) (.str "B") =
      (true, [(.named "x", .undefined)]) := by
  have hsome := matchSome_eq v ps (seedUndefined (getSelectionKeysList ps))
  refine ⟨?_, ?_, ?_, ?_, ?_⟩
  · simp [matchPattern, hsome]
  · intro hm
    simp only [matchPattern, hsome] at hm ⊢
    simp [hm]
  · intro k hk hm
    simp only [matchPattern, hsome] at hm ⊢
    simp [hm]
    rw [lookupSel_applySetAll]
    cases hlw : lastWrite (someCalls ps v) k <;>
      simp [hlw, lookupSel_seedUndefined, hk]
  · intro k hk hm hnone
    simp only [matchPattern, hsome] at hm ⊢
    simp [hm]
    rw [lookupSel_applySetAll, hnone]
    simp [lookupSel_seedUndefined, hk]
  · simp [matchPattern, matchSome, matchEvery, getSelectionKeysList, getSelectionKeys,
      seedUndefined, applySetAll, setSel, primEq, selKeyOf]

/-- Witness for C5 (amended): `union("B", intersection(select("x"), "A"))`
against `"B"`: the first branch matches immediately, no branch writes
`"x"`, and the result carries the seeded `x = undefined`. -/
theorem c5_union_default_fill_witness :
    lookupSel (matchPattern (.union [.lit (.str "B"),
        .intersection [.select (some "x"), .lit (.str "A")]]) (.str "B")).2
      (.named "x") = some JsValue.undefined := by
  exact (c5_union_default_fill [.lit (.str "B"),
      .intersection [.select (some "x"), .lit (.str "A")]] (.str "B")).2.2.2.1
    (.named "x")
    (by simp [getSelectionKeysList, getSelectionKeys, selKeyOf])
    (by simp [matchPattern, matchSome, getSelectionKeysList, getSelectionKeys,
      seedUndefined, applySetAll, setSel, primEq, selKeyOf])
    (by simp [someCalls, matchPattern, primEq, lastWrite])

/-- Counterexample to C6 as stated: `array(select())` against the empty
array matches with NO capture entries at all — the anonymous key is
absent, not "present but bound to the empty sequence"; and against a
one-element array whose element makes the subpattern capture the anonymous
key twice (`tuple(select(), select())` against `[[1, 2]]`), the captured
sequence has length 2 while the array has length 1, contradicting
"length equal to the array's length". -/
theorem c6_counterexample :
    matchPattern (.array (.select none)) (.arr []) = (true, []) ∧
    ([] : Selections) ≠ [(SelKey.anonymousSelectKey, JsValue.arr [])] ∧
    matchPattern (.array (.arrTuple [.select none, .select none]))
        (.arr [.arr [.num 1, .num 2]]) =
      (true, [(.anonymousSelectKey, .arr [.num 1, .num 2])]) ∧
    [JsValue.num 1, JsValue.num 2].length ≠ [JsValue.arr [JsValue.num 1, JsValue.num 2]].length := by
  refine ⟨?_, by simp, ?_, by simp⟩
  · simp [matchPattern, matchElems]
  · simp [matchPattern, matchElems, matchTuple, applyAppendAll, appendSel, lookupSel,
      setSel, selKeyOf]

/-- C6 (amended): `array(subpattern)` matches iff the value is an array
and every element matches the subpattern; on match, the forwarded
selections are the append-merge of the per-element emitted calls in
element order, so each written key is bound to the ordered sequence of the
values captured for it across elements (for `array(select())` against
`[1,2,3]`: the anonymous key bound to `[1,2,3]`), while a key no element
wrote — in particular every key, for the empty array — is absent. -/
theorem c6_array_capture_shape (p : JsPattern) (xs : List JsValue) (v : JsValue) :
    ((matchPattern (.array p) v).1 = true ↔
      ∃ ys, v = .arr ys ∧ (ys.all fun y => (matchPattern p y).1) = true) ∧
    ((∀ x ∈ xs, (matchPattern p x).1 = true) →
      (matchPattern (.array p) (.arr xs)).2 = applyAppendAll (elemCalls p xs) []) ∧
    (∀ k, lookupSel (applyAppendAll (elemCalls p xs) []) k =
      match appendsFor (elemCalls p xs) k with
      | [] => none
      | l => some (.arr l)) ∧
    matchPattern (.array (.select none)) (.arr [.num 1, .num 2, .num 3]) =
      (true, [(.anonymousSelectKey, .arr [.num 1, .num 2, .num 3])]) ∧
    matchPattern (.array (.select none)) (.arr []) = (true, []) := by
  refine ⟨?_, ?_, fun k => lookupSel_applyAppendAll (elemCalls p xs) k, ?_, ?_⟩
  · cases v <;> simp [matchPattern, matchElems_fst]
  · intro hall
    simp [matchPattern, matchElems_eq_of_all p xs [] hall, matchElems_fst,
      List.all_eq_true.mpr hall]
  · simp [matchPattern, matchElems, applyAppendAll, appendSel, lookupSel, setSel,
      selKeyOf]
  · simp [matchPattern, matchElems]

/-- Witness for C6 (amended): `array(select())` against `[1, 2, 3]` — all
elements match, and the forwarded selections equal the append-merge of the
per-element calls. -/
theorem c6_array_capture_shape_witness :
    (matchPattern (.array (.select none)) (.arr [.num 1, .num 2, .num 3])).2 =
      applyAppendAll (elemCalls (.select none) [.num 1, .num 2, .num 3]) [] := by
  exact (c6_array_capture_shape (.select none) [.num 1, .num 2, .num 3]
      (.arr [.num 1, .num 2, .num 3])).2.1
    (by intro x hx; simp [matchPattern])

/-- Counterexample to C7 as stated: with TWO leading patterns and a
function in second-to-last position, `with("1", "2", (v) => false,
handler)` on value `1` — the claim says the constantly-false guard makes
the case unmatchable, but the source only treats the function as a guard
in the three-argument form (`args.length === 3`), so here it is parsed as
a third pattern, the guard list stays empty, and the case matches via the
first pattern: resolution invokes the handler. -/
theorem c7_counterexample :
    parseWithArgs [.pat (.lit (.num 1)), .pat (.lit (.num 2)), .fn (fun _ => false)] =
      ([.pat (.lit (.num 1)), .pat (.lit (.num 2)), .fn (fun _ => false)], []) ∧
    run (Builder.with' (match' (.num 1))
        [.pat (.lit (.num 1)), .pat (.lit (.num 2)), .fn (fun _ => false)] 0) =
      RunResult.ok 0 (.num 1) (.num 1) ∧
    (fun (_ : JsValue) => false) (.num 1) = false := by
  refine ⟨rfl, ?_, rfl⟩
  simp [run, Builder.with', match', parseWithArgs, findFirst, runCase, scanPatterns,
    argMatch, matchPattern, primEq, applySetAll, caseSelect, Case.handler]

/-- C7 (amended): a function in second-to-last position is a guard exactly
in the three-argument form `with(pattern, guard, handler)`; that case then
matches iff the pattern matches AND the guard is truthy.  With any other
number of leading arguments, all of them are parsed as patterns and no
guard is recorded, the case matching iff any listed argument matches and
all recorded guards (then none) hold. -/
theorem c7_guard_only_three_args (a : WithArg) (f : JsValue → Bool) (v : JsValue)
    (pats : List WithArg) (preds : List (JsValue → Bool)) (h : Nat) :
    parseWithArgs [a, .fn f] = ([a], [f]) ∧
    (runCase (.withCase [a] [f] h) v).1 = ((argMatch a v).1 && f v) ∧
    (∀ l : List WithArg, l.length ≠ 2 → parseWithArgs l = (l, [])) ∧
    (runCase (.withCase pats preds h) v).1 =
      ((pats.any fun x => (argMatch x v).1) && preds.all fun g => g v) := by
  refine ⟨rfl, ?_, ?_, ?_⟩
  · simp [runCase, scanPatterns_eq]
  · intro l hl
    rcases l with _ | ⟨a0, _ | ⟨a1, _ | ⟨a2, rest⟩⟩⟩
    · rfl
    · rfl
    · simp at hl
    · simp [parseWithArgs]
  · simp [runCase, scanPatterns_eq]

/-- Witness for C7 (amended): a one-argument `with` parses its argument as
the single pattern with no guard, and the three-argument-form case on a
matching literal with a constantly-true guard matches. -/
theorem c7_guard_only_three_args_witness :
    parseWithArgs [WithArg.pat (.lit (.num 3))] = ([WithArg.pat (.lit (.num 3))], []) ∧
    (runCase (.withCase [WithArg.pat (.lit (.num 3))] [fun _ => true] 0) (.num 3)).1 = true := by
  have h := c7_guard_only_three_args (WithArg.pat (.lit (.num 3))) (fun _ => true)
    (.num 3) [] [] 0
  constructor
  · exact h.2.2.1 [WithArg.pat (.lit (.num 3))] (by simp)
  · have h2 := h.2.1
    simpa [argMatch, matchPattern, primEq] using h2

end TsPattern
